import Mathlib

/-!
Shallow embedding of the `criterion-linux-perf` crate (`src/lib.rs`).

The crate is a Criterion.rs measurement plugin that records Linux perf
hardware counters.  We embed:

* the closed enumeration `PerfMode` and its two lookup functions
  `PerfMode.event` and `PerfMode.formatter`, generated in the source by the
  `perf_mode!` macro (one declarative table; the unit triple is built by
  `concat!($unit, "/byte")` / `concat!($unit, "/element")`);
* the `PerfMeasurement` backend (`new`, `Default`, `start`, `end`, `add`,
  `zero`, `to_f64`);
* the `PerfFormatter` value formatter (`scale_values`, `scale_throughputs`,
  `scale_for_machines`).

Modelling conventions:

* Rust `u64` counter values are `Nat`, with arithmetic reduced modulo `2 ^ 64`
  where the source performs machine addition.
* Rust `f64` display values are modelled as exact rationals `ℚ`; the one
  genuine integer-to-float rounding step, the cast `val as f64` in `to_f64`,
  is modelled exactly by `f64ofNat`, round-to-nearest with ties to even at 53
  significant bits (the conversion Rust specifies for `u64 as f64`); every
  `u64` rounds to an integral float, so the model returns the exact integer
  value of the resulting float.
* The OS interaction in `start`/`end` (`perf_event::Builder::build`,
  `Counter::enable`/`disable`/`read`) is external to the crate; it is passed
  in as an explicit oracle `OsCounterApi`, and the `.unwrap()` panic on a
  failed call is modelled as `Except.error` propagation (a fatal abort).
-/

namespace CriterionLinuxPerf

/-- Hardware event selectors of the `perf_event` crate that the table in
`src/lib.rs` uses (`perf_event::events::Hardware`). -/
inductive Hardware where
  | INSTRUCTIONS
  | CPU_CYCLES
  | BRANCH_INSTRUCTIONS
  | BRANCH_MISSES
  | CACHE_REFERENCES
  | CACHE_MISSES
  | BUS_CYCLES
  | REF_CPU_CYCLES
deriving DecidableEq

/-- The `perf_event::events::Event` type; the crate only ever builds the
`Hardware` variant (via `$event.into()` in the `perf_mode!` macro). -/
inductive Event where
  | hardware (h : Hardware)
deriving DecidableEq

/-- The perf counter to measure when running a benchmark (`enum PerfMode`). -/
inductive PerfMode where
  | Instructions
  | Cycles
  | Branches
  | BranchMisses
  | CacheRefs
  | CacheMisses
  | BusCycles
  | RefCycles
deriving DecidableEq

/-- The unit-label triple held by `struct PerfFormatter`. -/
structure PerfFormatter where
  units : String
  throughput_bytes : String
  throughput_elements : String
deriving DecidableEq

/-- The event-selector lookup `PerfMode::event`, as expanded from the
`perf_mode!` table in `src/lib.rs` lines 85–94. -/
def PerfMode.event : PerfMode → Event
  | .Instructions => .hardware .INSTRUCTIONS
  | .Cycles => .hardware .CPU_CYCLES
  | .Branches => .hardware .BRANCH_INSTRUCTIONS
  | .BranchMisses => .hardware .BRANCH_MISSES
  | .CacheRefs => .hardware .CACHE_REFERENCES
  | .CacheMisses => .hardware .CACHE_MISSES
  | .BusCycles => .hardware .BUS_CYCLES
  | .RefCycles => .hardware .REF_CPU_CYCLES

/-- One arm of the `perf_mode!` formatter table: the macro builds the triple
from the single unit literal with `concat!($unit, "/byte")` and
`concat!($unit, "/element")`. -/
def mkPerfFormatter (unit : String) : PerfFormatter :=
  { units := unit
    throughput_bytes := unit ++ "/byte"
    throughput_elements := unit ++ "/element" }

/-- The unit-triple lookup `PerfMode::formatter`, as expanded from the
`perf_mode!` table in `src/lib.rs` lines 85–94. -/
def PerfMode.formatter : PerfMode → PerfFormatter
  | .Instructions => mkPerfFormatter "instructions"
  | .Cycles => mkPerfFormatter "cycles"
  | .Branches => mkPerfFormatter "branches"
  | .BranchMisses => mkPerfFormatter "branch misses"
  | .CacheRefs => mkPerfFormatter "cache refs"
  | .CacheMisses => mkPerfFormatter "cache misses"
  | .BusCycles => mkPerfFormatter "bus cycles"
  | .RefCycles => mkPerfFormatter "cycles"

/-- The measurement type `struct PerfMeasurement`. -/
structure PerfMeasurement where
  event : Event
  formatter : PerfFormatter
deriving DecidableEq

/-- `PerfMeasurement::new(mode)`. -/
def PerfMeasurement.new (mode : PerfMode) : PerfMeasurement :=
  { event := mode.event, formatter := mode.formatter }

/-- `impl Default for PerfMeasurement`, `src/lib.rs` lines 106–110. -/
def PerfMeasurement.default : PerfMeasurement :=
  PerfMeasurement.new PerfMode.Instructions

/-- `fn add(&self, v1, v2) -> u64 { v1 + v2 }`: machine `u64` addition,
i.e. addition modulo `2 ^ 64`. -/
def PerfMeasurement.add (_self : PerfMeasurement) (v1 v2 : Nat) : Nat :=
  (v1 + v2) % 2 ^ 64

/-- `fn zero(&self) -> u64 { 0 }`. -/
def PerfMeasurement.zero (_self : PerfMeasurement) : Nat :=
  0

/-- Round `r` within a grid of spacing `u`, given quotient `q` and remainder
`r < u`: round to nearest multiple of `u`, ties to even quotient.  This is the
significand-rounding core of the `u64 as f64` conversion. -/
def roundHalfEven (u q r : Nat) : Nat :=
  if 2 * r < u then q * u
  else if u < 2 * r then (q + 1) * u
  else if q % 2 = 0 then q * u else (q + 1) * u

/-- The grid spacing (unit in the last place) of an `f64` at magnitude `n`:
floats in `[2 ^ e, 2 ^ (e + 1))` are spaced `2 ^ (e - 52)` apart (53-bit
significand); for `e ≤ 52` the spacing is `1` and conversion is exact. -/
def ulpOf (n : Nat) : Nat :=
  2 ^ (Nat.log 2 n - 52)

/-- Exact model of the Rust cast `u64 as f64` (round to nearest
representable, ties to even), returning the exact integer value of the
resulting float (every `u64` rounds to an integral float). -/
def f64ofNat (n : Nat) : Nat :=
  roundHalfEven (ulpOf n) (n / ulpOf n) (n % ulpOf n)

/-- `fn to_f64(&self, val) -> f64 { *val as f64 }`, under the exact cast
model `f64ofNat`. -/
def PerfMeasurement.to_f64 (_self : PerfMeasurement) (val : Nat) : Nat :=
  f64ofNat val

/-- An opened hardware counter handle (`perf_event::Counter`); the crate
treats it as opaque, so we model it by an abstract identifier. -/
structure Counter where
  id : Nat
deriving DecidableEq

/-- An error returned by the OS perf-counter interface (the `std::io::Error`
inside the `perf_event` crate's results); opaque to the crate. -/
structure OsError where
  code : Nat
deriving DecidableEq

/-- Oracle for the OS interactions `start`/`end` perform through the
`perf_event` crate: building (opening) a counter for an event, enabling,
disabling, and reading it.  Each can fail with an `OsError`. -/
structure OsCounterApi where
  build : Event → Except OsError Counter
  enable : Counter → Except OsError Unit
  disable : Counter → Except OsError Unit
  read : Counter → Except OsError Nat

/-- `fn start(&self) -> Counter`, `src/lib.rs` lines 125–132: build a counter
for the resolved event, enable it, return it.  Each `.unwrap()` on a failed
result panics, aborting the run; the panic is modelled as `Except.error`. -/
def PerfMeasurement.start (self : PerfMeasurement) (os : OsCounterApi) :
    Except OsError Counter :=
  match os.build self.event with
  | .error e => .error e
  | .ok counter =>
    match os.enable counter with
    | .error e => .error e
    | .ok _ => .ok counter

/-- `fn end(&self, counter) -> u64`, `src/lib.rs` lines 134–137: disable the
counter, read it.  Each `.unwrap()` on a failed result panics, aborting the
run; the panic is modelled as `Except.error`. -/
def PerfMeasurement.«end» (_self : PerfMeasurement) (os : OsCounterApi)
    (counter : Counter) : Except OsError Nat :=
  match os.disable counter with
  | .error e => .error e
  | .ok _ =>
    match os.read counter with
    | .error e => .error e
    | .ok v => .ok v

/-- Criterion's `Throughput` enum (the fields are `u64`). -/
inductive Throughput where
  | Bytes (n : Nat)
  | BytesDecimal (n : Nat)
  | Elements (n : Nat)
deriving DecidableEq

/-- `fn scale_values(&self, _typical_value, _values) -> &str`, `src/lib.rs`
lines 164–166: returns the raw unit label and leaves the slice untouched; the
`&mut [f64]` slice is modelled by returning the (unchanged) list alongside
the label. -/
def PerfFormatter.scale_values (self : PerfFormatter) (_typical_value : ℚ)
    (values : List ℚ) : List ℚ × String :=
  (values, self.units)

/-- `fn scale_throughputs(&self, _typical_value, throughput, values) -> &str`,
`src/lib.rs` lines 168–194: divide every element in place by the basis count
and return the matching throughput label.  The cast `*n as f64` and the `f64`
division are modelled as exact rational arithmetic. -/
def PerfFormatter.scale_throughputs (self : PerfFormatter)
    (_typical_value : ℚ) (throughput : Throughput) (values : List ℚ) :
    List ℚ × String :=
  match throughput with
  | .Bytes n => (values.map (fun val => val / (n : ℚ)), self.throughput_bytes)
  | .BytesDecimal n =>
    (values.map (fun val => val / (n : ℚ)), self.throughput_bytes)
  | .Elements n =>
    (values.map (fun val => val / (n : ℚ)), self.throughput_elements)

/-- `fn scale_for_machines(&self, _values) -> &str`, `src/lib.rs` lines
196–198: returns the raw unit label and leaves the slice untouched. -/
def PerfFormatter.scale_for_machines (self : PerfFormatter)
    (values : List ℚ) : List ℚ × String :=
  (values, self.units)

/-- Oracle on which every OS call fails, used to exercise the failure path of
`start`. -/
def osAllFail : OsCounterApi :=
  { build := fun _ => .error ⟨13⟩
    enable := fun _ => .error ⟨13⟩
    disable := fun _ => .error ⟨13⟩
    read := fun _ => .error ⟨13⟩ }

lemma roundHalfEven_lower (u q r : Nat) : q * u ≤ roundHalfEven u q r := by
  unfold roundHalfEven
  split_ifs <;>
    first
      | exact Nat.le_refl _
      | exact Nat.mul_le_mul_right u (Nat.le_succ q)

lemma roundHalfEven_upper (u q r : Nat) : roundHalfEven u q r ≤ (q + 1) * u := by
  unfold roundHalfEven
  split_ifs <;>
    first
      | exact Nat.le_refl _
      | exact Nat.mul_le_mul_right u (Nat.le_succ q)

lemma roundHalfEven_mono_r (u q r1 r2 : Nat) (h : r1 ≤ r2) :
    roundHalfEven u q r1 ≤ roundHalfEven u q r2 := by
  unfold roundHalfEven
  split_ifs <;>
    first
      | exact Nat.le_refl _
      | exact Nat.mul_le_mul_right u (Nat.le_succ q)
      | (exfalso; omega)

lemma roundHalfEven_grid_mono (u n m : Nat) (hu : 0 < u) (h : n ≤ m) :
    roundHalfEven u (n / u) (n % u) ≤ roundHalfEven u (m / u) (m % u) := by
  rcases Nat.lt_or_ge (n / u) (m / u) with hq | hq
  · have h2 : (n / u + 1) * u ≤ m / u * u := Nat.mul_le_mul_right u hq
    exact le_trans (roundHalfEven_upper _ _ _)
      (le_trans h2 (roundHalfEven_lower _ _ _))
  · have hqe : n / u = m / u := Nat.le_antisymm (Nat.div_le_div_right h) hq
    have h1 := Nat.div_add_mod n u
    have h2 := Nat.div_add_mod m u
    rw [← hqe] at h2
    have hr : n % u ≤ m % u := by
      have h3 : u * (n / u) + n % u ≤ u * (n / u) + m % u := by
        rw [h1, h2]
        exact h
      exact Nat.le_of_add_le_add_left h3
    rw [hqe]
    exact roundHalfEven_mono_r u (m / u) (n % u) (m % u) hr

lemma f64ofNat_le_two_pow (n : Nat) :
    f64ofNat n ≤ 2 ^ (Nat.log 2 n + 1) := by
  unfold f64ofNat
  have hu : 0 < ulpOf n := pow_pos (by norm_num) _
  have hn2 : n < 2 ^ (Nat.log 2 n + 1) :=
    Nat.lt_pow_succ_log_self (by norm_num) n
  have hsplit :
      ulpOf n * 2 ^ (Nat.log 2 n + 1 - (Nat.log 2 n - 52)) =
        2 ^ (Nat.log 2 n + 1) := by
    unfold ulpOf
    rw [← pow_add]
    congr 1
    omega
  have hqlt :
      n / ulpOf n < 2 ^ (Nat.log 2 n + 1 - (Nat.log 2 n - 52)) := by
    rw [Nat.div_lt_iff_lt_mul hu, Nat.mul_comm, hsplit]
    exact hn2
  have h2 :
      (n / ulpOf n + 1) * ulpOf n ≤ 2 ^ (Nat.log 2 n + 1) := by
    rw [← hsplit, Nat.mul_comm (ulpOf n)]
    exact Nat.mul_le_mul_right (ulpOf n) hqlt
  exact le_trans (roundHalfEven_upper _ _ _) h2

lemma two_pow_le_f64ofNat (n : Nat) (hn : n ≠ 0) :
    2 ^ Nat.log 2 n ≤ f64ofNat n := by
  unfold f64ofNat
  have hu : 0 < ulpOf n := pow_pos (by norm_num) _
  have h1 : 2 ^ Nat.log 2 n ≤ n := Nat.pow_log_le_self 2 hn
  have hsplit :
      ulpOf n * 2 ^ (Nat.log 2 n - (Nat.log 2 n - 52)) =
        2 ^ Nat.log 2 n := by
    unfold ulpOf
    rw [← pow_add]
    congr 1
    omega
  have hq : 2 ^ (Nat.log 2 n - (Nat.log 2 n - 52)) ≤ n / ulpOf n := by
    rw [Nat.le_div_iff_mul_le hu, Nat.mul_comm, hsplit]
    exact h1
  have h2 : 2 ^ Nat.log 2 n ≤ n / ulpOf n * ulpOf n := by
    rw [← hsplit, Nat.mul_comm (ulpOf n)]
    exact Nat.mul_le_mul_right (ulpOf n) hq
  exact le_trans h2 (roundHalfEven_lower _ _ _)

lemma f64ofNat_mono {n m : Nat} (h : n ≤ m) : f64ofNat n ≤ f64ofNat m := by
  have hlog : Nat.log 2 n ≤ Nat.log 2 m := Nat.log_mono_right h
  rcases Nat.lt_or_ge (Nat.log 2 n) (Nat.log 2 m) with hl | hl
  · have hm : m ≠ 0 := by
      rintro rfl
      rw [Nat.log_zero_right] at hl
      exact Nat.not_lt_zero _ hl
    calc f64ofNat n ≤ 2 ^ (Nat.log 2 n + 1) := f64ofNat_le_two_pow n
      _ ≤ 2 ^ Nat.log 2 m := Nat.pow_le_pow_right (by norm_num) hl
      _ ≤ f64ofNat m := two_pow_le_f64ofNat m hm
  · have heq : Nat.log 2 n = Nat.log 2 m := Nat.le_antisymm hlog hl
    have hueq : ulpOf n = ulpOf m := by
      unfold ulpOf
      rw [heq]
    unfold f64ofNat
    rw [hueq]
    exact roundHalfEven_grid_mono (ulpOf m) n m (pow_pos (by norm_num) _) h

lemma f64ofNat_eq_of_dvd {n : Nat} (h : ulpOf n ∣ n) : f64ofNat n = n := by
  have hu : 0 < ulpOf n := pow_pos (by norm_num) _
  have hr : n % ulpOf n = 0 := Nat.mod_eq_zero_of_dvd h
  unfold f64ofNat roundHalfEven
  rw [hr, Nat.mul_zero, if_pos hu]
  exact Nat.div_mul_cancel h

lemma f64ofNat_eq_of_le_two_pow_53 {n : Nat} (h : n ≤ 2 ^ 53) :
    f64ofNat n = n := by
  apply f64ofNat_eq_of_dvd
  rcases Nat.lt_or_ge n (2 ^ 53) with hlt | hge
  · rcases Nat.eq_zero_or_pos n with rfl | hp
    · exact dvd_zero _
    · have hlog : Nat.log 2 n < 53 :=
        Nat.log_lt_of_lt_pow (Nat.pos_iff_ne_zero.mp hp) hlt
      have hu : ulpOf n = 1 := by
        unfold ulpOf
        have h0 : Nat.log 2 n - 52 = 0 := by omega
        rw [h0, pow_zero]
      rw [hu]
      exact one_dvd n
  · have hn : n = 2 ^ 53 := Nat.le_antisymm h hge
    have hlog : Nat.log 2 n = 53 := by
      rw [hn]
      exact Nat.log_pow (by norm_num : (1 : ℕ) < 2) 53
    have hu : ulpOf n = 2 := by
      unfold ulpOf
      rw [hlog]
      norm_num
    rw [hu, hn]
    exact dvd_pow_self 2 (by norm_num)

/-- C1: for every `PerfMode` variant (Instructions, Cycles, Branches,
BranchMisses, CacheRefs, CacheMisses, BusCycles, RefCycles) both the
event-selector lookup `event` and the unit-triple lookup `formatter` are
defined: they are total pure functions over the closed enumeration — every
variant yields some hardware selector and some unit triple — and the two
tables are exactly the eight entries of the `perf_mode!` invocation. -/
theorem event_formatter_total_on_PerfMode :
    (∀ k : PerfMode, ∃ h : Hardware, k.event = Event.hardware h) ∧
    (∀ k : PerfMode, ∃ u tb te : String,
      k.formatter =
        { units := u, throughput_bytes := tb, throughput_elements := te }) ∧
    PerfMode.Instructions.event = Event.hardware Hardware.INSTRUCTIONS ∧
    PerfMode.Cycles.event = Event.hardware Hardware.CPU_CYCLES ∧
    PerfMode.Branches.event = Event.hardware Hardware.BRANCH_INSTRUCTIONS ∧
    PerfMode.BranchMisses.event = Event.hardware Hardware.BRANCH_MISSES ∧
    PerfMode.CacheRefs.event = Event.hardware Hardware.CACHE_REFERENCES ∧
    PerfMode.CacheMisses.event = Event.hardware Hardware.CACHE_MISSES ∧
    PerfMode.BusCycles.event = Event.hardware Hardware.BUS_CYCLES ∧
    PerfMode.RefCycles.event = Event.hardware Hardware.REF_CPU_CYCLES ∧
    PerfMode.Instructions.formatter =
      ⟨"instructions", "instructions/byte", "instructions/element"⟩ ∧
    PerfMode.Cycles.formatter = ⟨"cycles", "cycles/byte", "cycles/element"⟩ ∧
    PerfMode.Branches.formatter =
      ⟨"branches", "branches/byte", "branches/element"⟩ ∧
    PerfMode.BranchMisses.formatter =
      ⟨"branch misses", "branch misses/byte", "branch misses/element"⟩ ∧
    PerfMode.CacheRefs.formatter =
      ⟨"cache refs", "cache refs/byte", "cache refs/element"⟩ ∧
    PerfMode.CacheMisses.formatter =
      ⟨"cache misses", "cache misses/byte", "cache misses/element"⟩ ∧
    PerfMode.BusCycles.formatter =
      ⟨"bus cycles", "bus cycles/byte", "bus cycles/element"⟩ ∧
    PerfMode.RefCycles.formatter =
      ⟨"cycles", "cycles/byte", "cycles/element"⟩ :=
  ⟨fun k => by cases k <;> exact ⟨_, rfl⟩,
    fun k => by cases k <;> exact ⟨_, _, _, rfl⟩,
    rfl, rfl, rfl, rfl, rfl, rfl, rfl, rfl,
    rfl, rfl, rfl, rfl, rfl, rfl, rfl, rfl⟩

/-- C3: the two non-throughput scaling operations, `scale_values` and
`scale_for_machines`, leave every element of the value array unchanged and
return the formatter's raw unit label; no magnitude-prefix rescaling is
applied. -/
theorem scale_values_and_machines_leave_values_unchanged :
    ∀ (f : PerfFormatter) (t : ℚ) (values : List ℚ),
      f.scale_values t values = (values, f.units) ∧
      f.scale_for_machines values = (values, f.units) :=
  fun _ _ _ => ⟨rfl, rfl⟩

/-- C4: `PerfMeasurement.default` is observably equivalent to
`PerfMeasurement.new PerfMode.Instructions`: the two resolve the same
hardware event selector and the same unit-label triple (namely the
instructions-retired selector and the "instructions" triple). -/
theorem default_equiv_new_instructions :
    PerfMeasurement.default = PerfMeasurement.new PerfMode.Instructions ∧
    PerfMeasurement.default.event =
      (PerfMeasurement.new PerfMode.Instructions).event ∧
    PerfMeasurement.default.formatter =
      (PerfMeasurement.new PerfMode.Instructions).formatter ∧
    PerfMeasurement.default.event = Event.hardware Hardware.INSTRUCTIONS ∧
    PerfMeasurement.default.formatter =
      ⟨"instructions", "instructions/byte", "instructions/element"⟩ :=
  ⟨rfl, rfl, rfl, rfl, rfl⟩

/-- C5: on unsigned 64-bit counter totals that do not overflow, `add` is the
exact mathematical sum — no precision loss and no saturation. -/
theorem add_eq_exact_sum (m : PerfMeasurement) (a b : Nat)
    (ha : a < 2 ^ 64) (hb : b < 2 ^ 64) (hab : a + b < 2 ^ 64) :
    m.add a b = a + b := by
  unfold PerfMeasurement.add
  exact Nat.mod_eq_of_lt hab

/-- Witness for C5 at `a = 2`, `b = 3`. -/
theorem add_eq_exact_sum_witness :
    (2 : Nat) < 2 ^ 64 ∧ (3 : Nat) < 2 ^ 64 ∧ (2 + 3 : Nat) < 2 ^ 64 ∧
    PerfMeasurement.default.add 2 3 = 2 + 3 :=
  ⟨by decide, by decide, by decide,
    add_eq_exact_sum PerfMeasurement.default 2 3
      (by decide) (by decide) (by decide)⟩

/-- C6: `zero` is a left and right identity for `add` on every representable
unsigned 64-bit value. -/
theorem zero_identity_for_add (m : PerfMeasurement) (x : Nat)
    (hx : x < 2 ^ 64) :
    m.add (m.zero) x = x ∧ m.add x (m.zero) = x := by
  refine ⟨?_, ?_⟩
  · show (0 + x) % 2 ^ 64 = x
    rw [Nat.zero_add]
    exact Nat.mod_eq_of_lt hx
  · show (x + 0) % 2 ^ 64 = x
    rw [Nat.add_zero]
    exact Nat.mod_eq_of_lt hx

/-- Witness for C6 at `x = 7`. -/
theorem zero_identity_for_add_witness :
    (7 : Nat) < 2 ^ 64 ∧
    PerfMeasurement.default.add (PerfMeasurement.default.zero) 7 = 7 ∧
    PerfMeasurement.default.add 7 (PerfMeasurement.default.zero) = 7 :=
  ⟨by decide,
    (zero_identity_for_add PerfMeasurement.default 7 (by decide)).1,
    (zero_identity_for_add PerfMeasurement.default 7 (by decide)).2⟩

/-- C7: `add` is associative and commutative on counter totals. -/
theorem add_assoc_comm (m : PerfMeasurement) (a b c : Nat) :
    m.add (m.add a b) c = m.add a (m.add b c) ∧ m.add a b = m.add b a := by
  unfold PerfMeasurement.add
  constructor
  · rw [Nat.mod_add_mod, Nat.add_mod_mod, Nat.add_assoc]
  · rw [Nat.add_comm]

/-- C2: throughput scaling with a positive basis `Bytes n` or
`BytesDecimal n` divides every element by `n` and returns the per-byte
label, and with basis `Elements n` divides every element by `n` and returns
the per-element label; in particular `[100, 200]` with `Bytes 50` yields
`[2, 4]` and `[100]` with `Elements 10` yields `[10]`. -/
theorem scale_throughputs_divides_by_basis (f : PerfFormatter) (t : ℚ)
    (n : Nat) (values : List ℚ) (hn : 0 < n) :
    f.scale_throughputs t (Throughput.Bytes n) values =
      (values.map (fun val => val / (n : ℚ)), f.throughput_bytes) ∧
    f.scale_throughputs t (Throughput.BytesDecimal n) values =
      (values.map (fun val => val / (n : ℚ)), f.throughput_bytes) ∧
    f.scale_throughputs t (Throughput.Elements n) values =
      (values.map (fun val => val / (n : ℚ)), f.throughput_elements) ∧
    (PerfMode.Instructions.formatter).scale_throughputs 0
      (Throughput.Bytes 50) [100, 200] = ([2, 4], "instructions/byte") ∧
    (PerfMode.Instructions.formatter).scale_throughputs 0
      (Throughput.Elements 10) [100] = ([10], "instructions/element") := by
  refine ⟨rfl, rfl, rfl, ?_, ?_⟩ <;>
    · simp only [PerfFormatter.scale_throughputs, PerfMode.formatter,
        mkPerfFormatter]
      norm_num
      rfl

/-- Witness for C2 at basis `Bytes 50` on `[100, 200]`. -/
theorem scale_throughputs_divides_by_basis_witness :
    0 < (50 : Nat) ∧
    (PerfMode.Instructions.formatter).scale_throughputs 0
        (Throughput.Bytes 50) [100, 200] =
      (([100, 200] : List ℚ).map (fun val => val / (50 : ℚ)),
        (PerfMode.Instructions.formatter).throughput_bytes) :=
  ⟨by decide,
    (scale_throughputs_divides_by_basis (PerfMode.Instructions.formatter) 0
      50 [100, 200] (by decide)).1⟩

/-- C10: for every `PerfMode` variant the unit triple is derived from the raw
unit string by fixed concatenation (`++ "/byte"`, `++ "/element"`), and the
raw unit strings are not distinct across variants: `Cycles` and `RefCycles`
are different variants with the identical triple based on `"cycles"`. -/
theorem formatter_labels_by_concatenation :
    (∀ k : PerfMode,
      (k.formatter).throughput_bytes = (k.formatter).units ++ "/byte" ∧
      (k.formatter).throughput_elements =
        (k.formatter).units ++ "/element") ∧
    PerfMode.Cycles ≠ PerfMode.RefCycles ∧
    PerfMode.Cycles.formatter = PerfMode.RefCycles.formatter ∧
    (PerfMode.Cycles.formatter).units = "cycles" ∧
    (PerfMode.RefCycles.formatter).units = "cycles" :=
  ⟨fun k => by cases k <;> exact ⟨rfl, rfl⟩,
    by decide, rfl, rfl, rfl⟩

/-- C8: under the exact model of the `u64 as f64` cast, `to_f64` maps `zero`
to `0`, is monotonic (non-decreasing) in its input, and is lossless — exact,
hence injective — for every input value up to `2 ^ 53`. -/
theorem to_f64_zero_mono_lossless (m : PerfMeasurement) :
    m.to_f64 (m.zero) = 0 ∧
    (∀ a b : Nat, a ≤ b → m.to_f64 a ≤ m.to_f64 b) ∧
    (∀ a : Nat, a ≤ 2 ^ 53 → m.to_f64 a = a) ∧
    (∀ a b : Nat, a ≤ 2 ^ 53 → b ≤ 2 ^ 53 →
      m.to_f64 a = m.to_f64 b → a = b) := by
  refine ⟨?_, ?_, ?_, ?_⟩
  · exact f64ofNat_eq_of_le_two_pow_53 (Nat.zero_le _)
  · intro a b hab
    exact f64ofNat_mono hab
  · intro a ha
    exact f64ofNat_eq_of_le_two_pow_53 ha
  · intro a b ha hb hf
    rw [show m.to_f64 a = f64ofNat a from rfl,
      show m.to_f64 b = f64ofNat b from rfl,
      f64ofNat_eq_of_le_two_pow_53 ha, f64ofNat_eq_of_le_two_pow_53 hb] at hf
    exact hf

/-- Witness for C8: monotonicity at `3 ≤ 5` and exactness at `5`. -/
theorem to_f64_zero_mono_lossless_witness :
    (3 : Nat) ≤ 5 ∧ (5 : Nat) ≤ 2 ^ 53 ∧
    PerfMeasurement.default.to_f64 3 ≤ PerfMeasurement.default.to_f64 5 ∧
    PerfMeasurement.default.to_f64 5 = 5 :=
  ⟨by decide, by decide,
    (to_f64_zero_mono_lossless PerfMeasurement.default).2.1 3 5 (by decide),
    (to_f64_zero_mono_lossless PerfMeasurement.default).2.2.1 5 (by decide)⟩

/-- C9: whenever an OS counter interaction fails (counter-open or enable
failure in `start`, disable or read failure in `end`), the error propagates
immediately as a fatal abort; `start` and `end` never silently return a
fabricated value: success of `start` means both OS calls succeeded on the
returned counter, and success of `end` means the value is exactly the one
the OS read returned. -/
theorem os_failures_abort (m : PerfMeasurement) (os : OsCounterApi)
    (c : Counter) :
    (∀ e, os.build m.event = .error e → m.start os = .error e) ∧
    (∀ counter e, os.build m.event = .ok counter →
      os.enable counter = .error e → m.start os = .error e) ∧
    (∀ counter, m.start os = .ok counter →
      os.build m.event = .ok counter ∧ os.enable counter = .ok ()) ∧
    (∀ e, os.disable c = .error e → m.«end» os c = .error e) ∧
    (∀ e, os.disable c = .ok () → os.read c = .error e →
      m.«end» os c = .error e) ∧
    (∀ v, m.«end» os c = .ok v → os.read c = .ok v) := by
  refine ⟨?_, ?_, ?_, ?_, ?_, ?_⟩
  · intro e h
    simp [PerfMeasurement.start, h]
  · intro counter e hb he
    simp [PerfMeasurement.start, hb, he]
  · intro counter h
    simp only [PerfMeasurement.start] at h
    cases hb : os.build m.event with
    | error e => simp [hb] at h
    | ok c' =>
      simp only [hb] at h
      cases he : os.enable c' with
      | error e => simp [he] at h
      | ok u =>
        simp only [he, Except.ok.injEq] at h
        subst h
        exact ⟨rfl, by cases u; exact he⟩
  · intro e h
    simp [PerfMeasurement.«end», h]
  · intro e hd hr
    simp [PerfMeasurement.«end», hd, hr]
  · intro v h
    simp only [PerfMeasurement.«end»] at h
    cases hd : os.disable c with
    | error e => simp [hd] at h
    | ok u =>
      simp only [hd] at h
      cases hr : os.read c with
      | error e => simp [hr] at h
      | ok w =>
        simp only [hr, Except.ok.injEq] at h
        subst h
        rfl

/-- Witness for C9: with an oracle on which every OS call fails, `start`
propagates the build error. -/
theorem os_failures_abort_witness :
    osAllFail.build PerfMeasurement.default.event = .error ⟨13⟩ ∧
    PerfMeasurement.default.start osAllFail = .error ⟨13⟩ :=
  ⟨rfl,
    (os_failures_abort PerfMeasurement.default osAllFail ⟨0⟩).1 ⟨13⟩ rfl⟩

end CriterionLinuxPerf
